import Mathlib

/-!
Shallow embedding of the availability resolver `findAvailableSlots` from
`src/app/components/MeetingsModal.tsx` (GoalPilot).

Modelling conventions:
* Instants are minutes since an epoch aligned to a local midnight (`Int`);
  a calendar day is exactly 1440 minutes (DST transitions out of scope).
* Epoch day 0 is a Thursday, matching the JavaScript epoch 1970-01-01, so
  the weekday of calendar-day index `d` is looked up at `(d + 4) mod 7`
  with 0 = Sunday, as `Date.getDay` / `toLocaleDateString` would yield.
* `form.myAvailableStart` / `form.myAvailableEnd` are `"HH:MM"` strings in
  the source, split into hour/minute numbers at the top of the loop; the
  embedding takes the four parsed numbers directly.
* The source `TimeSlot` also carries two display strings produced by
  `toLocaleString` with a time zone; those are presentation-only and are
  not part of the embedded slot value.
* `end` is a Lean keyword, so the interval records use `stop` for the
  source field `end`.
-/

/-- A calendar event as consumed by the resolver: only `start`/`end`
(instants, minutes) matter to it; `title` stands for the other payload the
event rows carry, to keep frame claims meaningful. -/
structure CalEvent where
  title : String
  start : Int
  stop : Int
deriving Repr, DecidableEq

/-- The slice of `MeetingForm` the resolver reads: `duration` (minutes) and
the parsed availability bounds plus the preferred weekday names. -/
structure MeetingForm where
  duration : Int
  startHour : Nat
  startMin : Nat
  endHour : Nat
  endMin : Nat
  preferredDays : List String
deriving Repr, DecidableEq

/-- A computed candidate slot (source `TimeSlot`, minus display strings). -/
structure TimeSlot where
  start : Int
  stop : Int
deriving Repr, DecidableEq

/-- Lower-case weekday name of calendar-day index `dayIdx`, as the source
obtains via `toLocaleDateString` with the long weekday option followed by
`toLowerCase` (line 88); epoch day 0 (1970-01-01) is a Thursday. -/
def weekdayName (dayIdx : Int) : String :=
  match ((dayIdx + 4) % 7).toNat with
  | 0 => "sunday"
  | 1 => "monday"
  | 2 => "tuesday"
  | 3 => "wednesday"
  | 4 => "thursday"
  | 5 => "friday"
  | _ => "saturday"

/-- JavaScript `getHours` of instant `t`: hour-of-day in the instant's own
calendar day. -/
def hoursOf (t : Int) : Int := (t % 1440) / 60

/-- JavaScript `getMinutes` of instant `t`: minute within the hour. -/
def minutesOf (t : Int) : Int := t % 60

/-- Source lines 115-119: `calendarEvents.some(event => slotStart < eventEnd
&& slotEnd > eventStart)`. -/
def hasConflict (events : List CalEvent) (slotStart slotEnd : Int) : Bool :=
  events.any fun e => slotStart < e.stop && slotEnd > e.start

/-- Source line 99: `for (let min = 0; min < 60; min += 30)`. -/
def minuteOptions : List Nat := [0, 30]

/-- Source line 98: `for (let hour = startHour; hour < endHour; hour++)`. -/
def hourRange (startHour endHour : Nat) : List Nat :=
  (List.range (endHour - startHour)).map fun i => startHour + i

/-- Body of the inner loop (source lines 100-147) for one `(hour, min)`
candidate on the day starting at instant `dayStart`: the two `continue`
guards, the end-of-window check on `getHours`/`getMinutes` of the slot end,
and the conflict check; `some slot` exactly when the candidate is kept. -/
def slotAt (form : MeetingForm) (events : List CalEvent) (dayStart : Int)
    (hour minute : Nat) : Option TimeSlot :=
  if hour = form.startHour ∧ minute < form.startMin then none
  else if (hour : Int) = (form.endHour : Int) - 1 ∧ (minute : Int) + form.duration > 60 then none
  else
    let slotStart : Int := dayStart + (hour : Int) * 60 + (minute : Int)
    let slotEnd : Int := slotStart + form.duration
    if hoursOf slotEnd > (form.endHour : Int) ∨
        (hoursOf slotEnd = (form.endHour : Int) ∧ minutesOf slotEnd > (form.endMin : Int)) then none
    else if hasConflict events slotStart slotEnd then none
    else some ⟨slotStart, slotEnd⟩

/-- All slots the nested hour/minute loops push for the day starting at
`dayStart` (source lines 98-149), in visit order. -/
def daySlots (form : MeetingForm) (events : List CalEvent) (dayStart : Int) : List TimeSlot :=
  (hourRange form.startHour form.endHour).flatMap fun hour =>
    minuteOptions.filterMap fun minute => slotAt form events dayStart hour minute

/-- The full `slots` array before the final slice: day offsets 1 through 14
from the current day (source line 84, `for (let dayOffset = 1;
dayOffset <= 14; dayOffset++)`), skipping days whose weekday name is not in
`form.preferredDays` (source line 91). -/
def allCandidateSlots (form : MeetingForm) (events : List CalEvent) (now : Int) : List TimeSlot :=
  (List.range 14).flatMap fun i =>
    if form.preferredDays.contains (weekdayName (now / 1440 + ((i : Int) + 1))) then
      daySlots form events ((now / 1440 + ((i : Int) + 1)) * 1440)
    else []

/-- `findAvailableSlots` (source lines 78-155): the suggested slots, capped
at line 152 to the first 12 entries of `slots`. -/
def findAvailableSlots (form : MeetingForm) (events : List CalEvent) (now : Int) : List TimeSlot :=
  (allCandidateSlots form events now).take 12

/-- The candidate start times (minutes after the day's midnight) the inner
loops actually step through on a matching day, i.e. the `(hour, min)` pairs
surviving the two `continue` guards of source lines 100-101, before the
end-of-window and conflict checks. -/
def consideredStarts (form : MeetingForm) : List Nat :=
  (hourRange form.startHour form.endHour).flatMap fun hour =>
    minuteOptions.filterMap fun minute =>
      if hour = form.startHour ∧ minute < form.startMin then none
      else if (hour : Int) = (form.endHour : Int) - 1 ∧ (minute : Int) + form.duration > 60 then none
      else some (hour * 60 + minute)

/-- Modelled from the spec's words (step 2 of the algorithm), for comparison
with `consideredStarts`: "step through candidate start times from
`window.startTimeOfDay` to `window.endTimeOfDay - duration`, incrementing by
`stepMinutes`" — the arithmetic progression `startT, startT + step, ...`
up to and including the last value not exceeding `endT - dur`. -/
def specConsideredStarts (startT endT dur step : Int) : List Int :=
  (List.range (((endT - dur - startT) / step + 1).toNat)).map
    fun k => startT + (k : Int) * step

/-! ### Concrete inputs used in scenarios and counterexamples

Calendar-day index 3 is a Sunday and 4 a Monday (day 0 = Thursday).
`5040 = 3 * 1440 + 720` is Sunday noon; `6240 = 4 * 1440 + 480` is Monday
08:00. On Monday day 4, 09:00 is instant `6300`, 10:00 is `6360`, and so
on; the next Monday is day 11 (day start `15840`). -/

/-- The form of the spec's concrete scenario (claim C2): 60-minute meetings,
available 09:00-12:00 on Mondays. -/
def scenarioForm : MeetingForm := ⟨60, 9, 0, 12, 0, ["monday"]⟩

/-- The busy interval of the spec's concrete scenario: Monday (day 4)
10:00-10:30, i.e. instants 6360-6390. -/
def scenarioEvents : List CalEvent := [⟨"busy", 6360, 6390⟩]

/-- A 200-minute duration with a 20:00-23:59 Monday window: candidates
starting 21:00 or later end after midnight. -/
def lateForm : MeetingForm := ⟨200, 20, 0, 23, 59, ["monday"]⟩

/-- Same availability as `scenarioForm`, used with `now` on a Monday
morning. -/
def mondayForm : MeetingForm := ⟨60, 9, 0, 12, 0, ["monday"]⟩

/-- Zero duration with a 09:00-17:00 Monday window. -/
def zeroDurForm : MeetingForm := ⟨0, 9, 0, 17, 0, ["monday"]⟩

/-- A window starting at 09:15 (nonzero start minute), 60-minute duration. -/
def quarterForm : MeetingForm := ⟨60, 9, 15, 12, 0, ["monday"]⟩

/-- A window ending at 17:30 (nonzero end minute), 60-minute duration. -/
def halfEndForm : MeetingForm := ⟨60, 9, 0, 17, 30, ["monday"]⟩

/-! ### Membership decomposition helpers -/

/-- Unfolding membership in `daySlots`: the slot comes from some surviving
`(hour, minute)` pair of the nested loops. -/
lemma mem_daySlots {form : MeetingForm} {es : List CalEvent} {d : Int} {s : TimeSlot}
    (h : s ∈ daySlots form es d) :
    ∃ hour minute : Nat,
      form.startHour ≤ hour ∧ hour < form.endHour ∧ (minute = 0 ∨ minute = 30) ∧
      slotAt form es d hour minute = some s := by
  simp only [daySlots, List.mem_flatMap, List.mem_filterMap] at h
  obtain ⟨hour, hh, minute, hm, hs⟩ := h
  simp only [hourRange, List.mem_map, List.mem_range] at hh
  obtain ⟨i, hi, rfl⟩ := hh
  refine ⟨form.startHour + i, minute, Nat.le_add_right _ _, by omega, ?_, hs⟩
  simpa [minuteOptions] using hm

/-- Everything the guards of the inner loop body guarantee about a kept
slot. -/
lemma slotAt_eq_some {form : MeetingForm} {es : List CalEvent} {d : Int}
    {hour minute : Nat} {s : TimeSlot} (h : slotAt form es d hour minute = some s) :
    s.start = d + (hour : Int) * 60 + (minute : Int) ∧
    s.stop = s.start + form.duration ∧
    hasConflict es s.start s.stop = false ∧
    ¬(hoursOf s.stop > (form.endHour : Int) ∨
      (hoursOf s.stop = (form.endHour : Int) ∧ minutesOf s.stop > (form.endMin : Int))) ∧
    (hour = form.startHour → form.startMin ≤ minute) ∧
    ((hour : Int) = (form.endHour : Int) - 1 → (minute : Int) + form.duration ≤ 60) := by
  simp only [slotAt] at h
  split_ifs at h with h1 h2 h3 h4
  all_goals cases h
  exact ⟨rfl, rfl, by simpa using h4, h3, by omega, by omega⟩

/-- Unfolding membership in `allCandidateSlots`: the slot comes from one of
the 14 scanned days, whose weekday name is preferred. -/
lemma mem_allCandidateSlots {form : MeetingForm} {es : List CalEvent} {now : Int}
    {s : TimeSlot} (h : s ∈ allCandidateSlots form es now) :
    ∃ i : Nat, i < 14 ∧
      weekdayName (now / 1440 + ((i : Int) + 1)) ∈ form.preferredDays ∧
      s ∈ daySlots form es ((now / 1440 + ((i : Int) + 1)) * 1440) := by
  simp only [allCandidateSlots, List.mem_flatMap, List.mem_range] at h
  obtain ⟨i, hi, hmem⟩ := h
  have h2 : weekdayName (now / 1440 + ((i : Int) + 1)) ∈ form.preferredDays ∧
      s ∈ daySlots form es ((now / 1440 + ((i : Int) + 1)) * 1440) := by
    simpa using hmem
  exact ⟨i, hi, h2.1, h2.2⟩

/-- A returned slot is a candidate slot. -/
lemma mem_of_mem_result {form : MeetingForm} {es : List CalEvent} {now : Int}
    {s : TimeSlot} (h : s ∈ findAvailableSlots form es now) :
    s ∈ allCandidateSlots form es now :=
  (List.take_sublist 12 _).subset h

/-- Every returned slot starts at or after the midnight following `now`:
the day loop begins at day offset 1, so every candidate lies on a later
calendar day than `now`. -/
lemma result_start_lb {form : MeetingForm} {es : List CalEvent} {now : Int}
    {s : TimeSlot} (h : s ∈ findAvailableSlots form es now) :
    (now / 1440 + 1) * 1440 ≤ s.start := by
  obtain ⟨i, hi, _, hd⟩ := mem_allCandidateSlots (mem_of_mem_result h)
  obtain ⟨hour, minute, _, _, _, hsa⟩ := mem_daySlots hd
  obtain ⟨hstart, -⟩ := slotAt_eq_some hsa
  omega

/-- C1. No false positives: every slot returned by `findAvailableSlots`
overlaps no busy interval under the half-open test: for every returned slot
`s` and every event `e`, not (`s.start < e.stop` and `s.stop > e.start`). -/
theorem c1_no_false_positives (form : MeetingForm) (es : List CalEvent) (now : Int)
    (s : TimeSlot) (e : CalEvent)
    (hs : s ∈ findAvailableSlots form es now) (he : e ∈ es) :
    ¬(s.start < e.stop ∧ s.stop > e.start) := by
  obtain ⟨i, _, _, hd⟩ := mem_allCandidateSlots (mem_of_mem_result hs)
  obtain ⟨hour, minute, _, _, _, hsa⟩ := mem_daySlots hd
  obtain ⟨_, _, hconf, -⟩ := slotAt_eq_some hsa
  have hall : ∀ x ∈ es, ¬(s.start < x.stop ∧ s.stop > x.start) := by
    simpa [hasConflict] using hconf
  exact hall e he

/-- Witness for C1 at the concrete scenario input: the returned slot
09:00-10:00 does not overlap the busy interval 10:00-10:30. -/
theorem c1_witness :
    (⟨6300, 6360⟩ : TimeSlot) ∈ findAvailableSlots scenarioForm scenarioEvents 5040 ∧
    (⟨"busy", 6360, 6390⟩ : CalEvent) ∈ scenarioEvents ∧
    ¬((6300 : Int) < 6390 ∧ (6360 : Int) > 6360) :=
  ⟨by decide, by decide,
    c1_no_false_positives scenarioForm scenarioEvents 5040 ⟨6300, 6360⟩ ⟨"busy", 6360, 6390⟩
      (by decide) (by decide)⟩

/-- C2 counterexample: in the spec's concrete scenario (Monday 09:00-12:00
window, 60-minute duration, busy Monday 10:00-10:30, `now` Sunday noon),
the 09:30 candidate — instants 6330-6390 — is NOT returned (its block ends
at 10:30, overlapping the busy interval), while the 10:30 candidate —
instants 6390-6450 — IS returned (it starts exactly at the busy end, no
overlap under the half-open test); the claim asserts the opposite for
both. -/
theorem c2_counterexample :
    (⟨6330, 6390⟩ : TimeSlot) ∉ findAvailableSlots scenarioForm scenarioEvents 5040 ∧
    (⟨6390, 6450⟩ : TimeSlot) ∈ findAvailableSlots scenarioForm scenarioEvents 5040 := by
  decide

/-- C2 amended: in the spec's scenario the resolver keeps Monday 09:00,
10:30 and 11:00 (the last ending exactly at the window boundary 12:00) and
rejects 09:30 and 10:00 as overlapping the busy interval 10:00-10:30; the
14-day horizon also reaches the following Monday (day 11), whose five
candidates are all free. -/
theorem c2_amended_scenario :
    findAvailableSlots scenarioForm scenarioEvents 5040 =
      [⟨6300, 6360⟩, ⟨6390, 6450⟩, ⟨6420, 6480⟩,
       ⟨16380, 16440⟩, ⟨16410, 16470⟩, ⟨16440, 16500⟩,
       ⟨16470, 16530⟩, ⟨16500, 16560⟩] := by
  decide

/-- C4. Futurity: every returned slot starts at or after `now` (the day
loop starts at tomorrow, so in fact strictly after). -/
theorem c4_futurity (form : MeetingForm) (es : List CalEvent) (now : Int)
    (s : TimeSlot) (hs : s ∈ findAvailableSlots form es now) :
    now ≤ s.start := by
  have h := result_start_lb hs
  omega

/-- Witness for C4 at the concrete scenario input. -/
theorem c4_witness :
    (⟨6300, 6360⟩ : TimeSlot) ∈ findAvailableSlots scenarioForm scenarioEvents 5040 ∧
    (5040 : Int) ≤ 6300 :=
  ⟨by decide, c4_futurity scenarioForm scenarioEvents 5040 ⟨6300, 6360⟩ (by decide)⟩

/-- C5 counterexample: `now` is Monday (day 4) 08:00 = instant 6240; the
09:00-12:00 Monday window leaves a free in-window candidate later the same
day (09:00 = instant 6300 ≥ `now`, the busy list is empty, and day 4 is a
Monday), yet no returned slot starts before the next midnight (instant
7200): the day loop starts at `dayOffset = 1`, so the current day is never
scanned — contradicting the claimed scan range `[today, today + horizon)`.
The result is nonempty (slots on the following Mondays), so the absence is
not for lack of candidates. -/
theorem c5_counterexample :
    (6240 : Int) ≤ 6300 ∧ weekdayName 4 = "monday" ∧
    ((findAvailableSlots mondayForm [] 6240).any fun s => decide (s.start < 7200)) = false ∧
    findAvailableSlots mondayForm [] 6240 ≠ [] := by
  decide

/-- C5 amended: the scanned days are exactly `[today + 1, today + 14]` —
the current day is excluded — so every returned slot starts at or after the
midnight following `now`, and no same-day slot is ever returned. -/
theorem c5_amended_tomorrow_onward (form : MeetingForm) (es : List CalEvent) (now : Int)
    (s : TimeSlot) (hs : s ∈ findAvailableSlots form es now) :
    (now / 1440 + 1) * 1440 ≤ s.start :=
  result_start_lb hs

/-- Witness for the amended C5: a slot on the following Monday, starting
after the midnight that follows `now`. -/
theorem c5_witness :
    (⟨16380, 16440⟩ : TimeSlot) ∈ findAvailableSlots mondayForm [] 6240 ∧
    ((6240 : Int) / 1440 + 1) * 1440 ≤ 16380 :=
  ⟨by decide, c5_amended_tomorrow_onward mondayForm [] 6240 ⟨16380, 16440⟩ (by decide)⟩

/-- C7 counterexample: with duration 0 (≤ 0), a nonempty preferred-day list
and an empty busy list, the resolver returns a nonempty list of zero-length
slots instead of degrading to the empty sequence. -/
theorem c7_counterexample :
    zeroDurForm.duration ≤ 0 ∧ zeroDurForm.preferredDays ≠ [] ∧
    findAvailableSlots zeroDurForm [] 5040 ≠ [] := by
  decide

/-- C7 amended: the resolver is a total function (it cannot throw), and an
empty preferred-day list — the embedding of an empty window list — always
yields the empty result; but non-positive durations do NOT degrade to an
empty result. -/
theorem c7_amended_empty_windows (form : MeetingForm) (es : List CalEvent) (now : Int)
    (h : form.preferredDays = []) : findAvailableSlots form es now = [] := by
  apply List.eq_nil_iff_forall_not_mem.mpr
  intro s hs
  obtain ⟨i, _, hc, _⟩ := mem_allCandidateSlots (mem_of_mem_result hs)
  rw [h] at hc
  cases hc

/-- Witness for the amended C7: a concrete form with no preferred days. -/
theorem c7_witness :
    (⟨30, 9, 0, 17, 0, []⟩ : MeetingForm).preferredDays = [] ∧
    findAvailableSlots ⟨30, 9, 0, 17, 0, []⟩ [] 5040 = [] :=
  ⟨rfl, c7_amended_empty_windows ⟨30, 9, 0, 17, 0, []⟩ [] 5040 rfl⟩

/-- C3 counterexample: with a Monday 20:00-23:59 window and duration 200,
the slot starting Monday 21:00 (instant 7020) ends at 00:20 the next day
(instant 7220) and is returned: `getHours` of the slot end wraps past
midnight to 0, so the window-end check at source line 110 does not fire.
The returned slot is contained in no scanned matching window occurrence:
the `all` conjunct checks, for each of the 14 scanned days, that the day is
not both preferred and containing the slot. -/
theorem c3_counterexample :
    (⟨7020, 7220⟩ : TimeSlot) ∈ findAvailableSlots lateForm [] 5040 ∧
    ((List.range 14).all fun i =>
      !(lateForm.preferredDays.contains (weekdayName ((5040 : Int) / 1440 + ((i : Int) + 1))) &&
        decide (((5040 : Int) / 1440 + ((i : Int) + 1)) * 1440
            + (lateForm.startHour : Int) * 60 + (lateForm.startMin : Int) ≤ 7020) &&
        decide ((7220 : Int) ≤ ((5040 : Int) / 1440 + ((i : Int) + 1)) * 1440
            + (lateForm.endHour : Int) * 60 + (lateForm.endMin : Int)))) = true := by
  decide

/-- C3 amended: containment holds for every returned slot that stays within
its own day: if the end times parse sanely (`startMin < 60`, `endHour ≤ 24`,
as any `"HH:MM"` input gives), the duration is nonnegative, and the slot's
start time-of-day plus the duration stays below 1440 (no midnight
crossing), then the slot lies entirely inside the window occurrence of one
of the 14 scanned days whose weekday is preferred. Slots whose end crosses
midnight can escape the window-end check (see the counterexample). -/
theorem c3_amended_containment (form : MeetingForm) (es : List CalEvent) (now : Int)
    (s : TimeSlot)
    (hmin : form.startMin < 60) (h24 : form.endHour ≤ 24) (hdur : 0 ≤ form.duration)
    (hs : s ∈ findAvailableSlots form es now)
    (hmid : s.start % 1440 + form.duration < 1440) :
    ∃ i : Nat, i < 14 ∧
      weekdayName (now / 1440 + ((i : Int) + 1)) ∈ form.preferredDays ∧
      (now / 1440 + ((i : Int) + 1)) * 1440
          + (form.startHour : Int) * 60 + (form.startMin : Int) ≤ s.start ∧
      s.stop ≤ (now / 1440 + ((i : Int) + 1)) * 1440
          + (form.endHour : Int) * 60 + (form.endMin : Int) := by
  obtain ⟨i, hi, hpref, hd⟩ := mem_allCandidateSlots (mem_of_mem_result hs)
  obtain ⟨hour, minute, hsh, hhe, hm30, hsa⟩ := mem_daySlots hd
  obtain ⟨hstart, hstop, -, hendchk, hsm, -⟩ := slotAt_eq_some hsa
  push_neg at hendchk
  simp only [hoursOf, minutesOf] at hendchk
  exact ⟨i, hi, hpref, by omega, by omega⟩

/-- Witness for the amended C3: the scenario slot 09:00-10:00 on Monday
(day 4) is contained in that day's window occurrence. -/
theorem c3_witness :
    (⟨6300, 6360⟩ : TimeSlot) ∈ findAvailableSlots scenarioForm scenarioEvents 5040 ∧
    (6300 : Int) % 1440 + scenarioForm.duration < 1440 ∧
    ∃ i : Nat, i < 14 ∧
      weekdayName ((5040 : Int) / 1440 + ((i : Int) + 1)) ∈ scenarioForm.preferredDays ∧
      ((5040 : Int) / 1440 + ((i : Int) + 1)) * 1440
          + (scenarioForm.startHour : Int) * 60 + (scenarioForm.startMin : Int) ≤ 6300 ∧
      (6360 : Int) ≤ ((5040 : Int) / 1440 + ((i : Int) + 1)) * 1440
          + (scenarioForm.endHour : Int) * 60 + (scenarioForm.endMin : Int) :=
  ⟨by decide, by decide,
    c3_amended_containment scenarioForm scenarioEvents 5040 ⟨6300, 6360⟩
      (by decide) (by decide) (by decide) (by decide) (by decide)⟩

/-- C6 counterexample: the spec's stepping grid and the code's grid differ.
With a window starting 09:15 (555 minutes) the spec's first candidate is
09:15, but the code's grid is aligned to minutes 0 and 30 of each clock
hour, so 555 is never considered. With a window ending 17:30 (1050) and
duration 60, the spec considers the candidate 16:30 (990), which ends
exactly at the window end, but the code's last-hour guard
(`min + duration > 60`) skips it. -/
theorem c6_counterexample :
    (555 : Int) ∈ specConsideredStarts 555 720 60 30 ∧
    (555 : Nat) ∉ consideredStarts quarterForm ∧
    (990 : Int) ∈ specConsideredStarts 540 1050 60 30 ∧
    (990 : Nat) ∉ consideredStarts halfEndForm := by
  decide

/-- C6 amended: on a matching day, the candidate start times the loops step
through are exactly the clock-aligned half-hour marks (minute 0 or 30) that
are at or after `startTimeOfDay` and strictly before `endHour:00`,
excluding those in the final hour `[endHour-1:00, endHour:00)` whose
minute-within-hour plus the duration exceeds 60; the 30-minute step is
hard-coded (not configurable) and the grid is not anchored at the window
start. -/
theorem c6_amended_grid (form : MeetingForm) (t : Nat) (hmin : form.startMin < 60) :
    t ∈ consideredStarts form ↔
      t % 30 = 0 ∧ form.startHour * 60 + form.startMin ≤ t ∧ t < form.endHour * 60 ∧
      ¬(((form.endHour : Int) - 1) * 60 ≤ (t : Int) ∧ (t : Int) % 60 + form.duration > 60) := by
  constructor
  · intro h
    simp only [consideredStarts, List.mem_flatMap, List.mem_filterMap] at h
    obtain ⟨hour, hh, minute, hm, ht⟩ := h
    simp only [hourRange, List.mem_map, List.mem_range] at hh
    obtain ⟨j, hj, rfl⟩ := hh
    have hm30 : minute = 0 ∨ minute = 30 := by simpa [minuteOptions] using hm
    split_ifs at ht with h1 h2
    all_goals cases ht
    omega
  · intro h
    obtain ⟨h30, hsl, hub, hlast⟩ := h
    have hA : ¬(t / 60 = form.startHour ∧ t % 60 < form.startMin) := by omega
    have hB : ¬(((t / 60 : Nat) : Int) = (form.endHour : Int) - 1 ∧
        ((t % 60 : Nat) : Int) + form.duration > 60) := by omega
    simp only [consideredStarts, List.mem_flatMap, List.mem_filterMap]
    refine ⟨t / 60, ?_, t % 60, ?_, ?_⟩
    · simp only [hourRange, List.mem_map, List.mem_range]
      exact ⟨t / 60 - form.startHour, by omega, by omega⟩
    · have hm60 : t % 60 = 0 ∨ t % 60 = 30 := by omega
      simp only [minuteOptions, List.mem_cons, List.mem_singleton]
      omega
    · rw [if_neg hA, if_neg hB]
      simp only [Option.some.injEq]
      omega

/-- Witness for the amended C6: 09:00 (540 minutes) is a considered start
for the 09:00-17:30 window. -/
theorem c6_witness :
    halfEndForm.startMin < 60 ∧ (540 : Nat) ∈ consideredStarts halfEndForm :=
  ⟨by decide, (c6_amended_grid halfEndForm 540 (by decide)).mpr (by decide)⟩

/-! ### Ordering machinery (shared by the ordering and bounded-output
claims) -/

/-- Position bounds for a slot of one day: its start lies in
`[dayStart, dayStart + endHour * 60)`. -/
lemma daySlots_start_range {form : MeetingForm} {es : List CalEvent} {d : Int}
    {s : TimeSlot} (h : s ∈ daySlots form es d) :
    d ≤ s.start ∧ s.start < d + (form.endHour : Int) * 60 := by
  obtain ⟨hour, minute, hsh, hhe, hm30, hsa⟩ := mem_daySlots h
  obtain ⟨hstart, -⟩ := slotAt_eq_some hsa
  omega

/-- Start of a slot produced for a fixed hour. -/
lemma mem_hourSlots {form : MeetingForm} {es : List CalEvent} {d : Int} {hour : Nat}
    {s : TimeSlot}
    (h : s ∈ minuteOptions.filterMap fun minute => slotAt form es d hour minute) :
    ∃ minute : Nat, (minute = 0 ∨ minute = 30) ∧
      s.start = d + (hour : Int) * 60 + (minute : Int) := by
  simp only [List.mem_filterMap] at h
  obtain ⟨minute, hm, hsa⟩ := h
  obtain ⟨hstart, -⟩ := slotAt_eq_some hsa
  exact ⟨minute, by simpa [minuteOptions] using hm, hstart⟩

/-- One day's slots are visited in non-decreasing start order. -/
lemma daySlots_sorted (form : MeetingForm) (es : List CalEvent) (d : Int) :
    (daySlots form es d).Pairwise (fun a b => a.start ≤ b.start) := by
  unfold daySlots
  rw [List.pairwise_flatMap]
  constructor
  · intro hour hh
    rcases h0 : slotAt form es d hour 0 with _ | s0 <;>
      rcases h30 : slotAt form es d hour 30 with _ | s30 <;>
        simp [minuteOptions, List.filterMap, h0, h30]
    obtain ⟨e0, -⟩ := slotAt_eq_some h0
    obtain ⟨e30, -⟩ := slotAt_eq_some h30
    omega
  · unfold hourRange
    rw [List.pairwise_map]
    refine List.Pairwise.imp ?_ (List.pairwise_lt_range _)
    intro i j hij x hx y hy
    obtain ⟨m1, hm1, hx1⟩ := mem_hourSlots hx
    obtain ⟨m2, hm2, hy1⟩ := mem_hourSlots hy
    omega

/-- The full candidate list is chronological provided the window-end hour
parses as a time of day (`endHour ≤ 24`): days ascend and, within a day,
hours and half-hours ascend. -/
lemma allCandidateSlots_sorted (form : MeetingForm) (es : List CalEvent) (now : Int)
    (h24 : form.endHour ≤ 24) :
    (allCandidateSlots form es now).Pairwise (fun a b => a.start ≤ b.start) := by
  unfold allCandidateSlots
  rw [List.pairwise_flatMap]
  constructor
  · intro i hi
    split
    · exact daySlots_sorted form es _
    · exact List.Pairwise.nil
  · refine List.Pairwise.imp ?_ (List.pairwise_lt_range _)
    intro i j hij x hx y hy
    rcases hci : form.preferredDays.contains (weekdayName (now / 1440 + ((i : Int) + 1))) with _ | _
    · rw [hci] at hx; simp at hx
    rcases hcj : form.preferredDays.contains (weekdayName (now / 1440 + ((j : Int) + 1))) with _ | _
    · rw [hcj] at hy; simp at hy
    rw [hci] at hx
    rw [hcj] at hy
    simp only [if_pos] at hx hy
    have hxb := daySlots_start_range hx
    have hyb := daySlots_start_range hy
    omega

/-- C8. Ordering: the returned sequence is non-decreasing in start time
(days ascending, then time-of-day ascending within a day), for every busy
list — in any order — and every `now`; `endHour ≤ 24` holds for every value
a `"HH:MM"` time input can parse to. -/
theorem c8_ordering (form : MeetingForm) (es : List CalEvent) (now : Int)
    (h24 : form.endHour ≤ 24) :
    (findAvailableSlots form es now).Pairwise (fun a b => a.start ≤ b.start) :=
  List.Pairwise.sublist (List.take_sublist 12 _)
    (allCandidateSlots_sorted form es now h24)

/-- Witness for C8 at the concrete scenario input. -/
theorem c8_witness :
    scenarioForm.endHour ≤ 24 ∧
    (findAvailableSlots scenarioForm scenarioEvents 5040).Pairwise
      (fun a b => a.start ≤ b.start) :=
  ⟨by decide, c8_ordering scenarioForm scenarioEvents 5040 (by decide)⟩

/-- C9. Bounded output: at most 12 slots are returned (`slice(0, 12)`), and
the kept slots are the chronologically earliest surviving candidates: any
surviving candidate that is dropped starts no earlier than every returned
slot. -/
theorem c9_bounded_earliest (form : MeetingForm) (es : List CalEvent) (now : Int)
    (h24 : form.endHour ≤ 24) :
    (findAvailableSlots form es now).length ≤ 12 ∧
    ∀ s ∈ allCandidateSlots form es now, s ∉ findAvailableSlots form es now →
      ∀ r ∈ findAvailableSlots form es now, r.start ≤ s.start := by
  constructor
  · exact List.length_take_le _ _
  · intro s hs hns r hr
    have hsorted := allCandidateSlots_sorted form es now h24
    rw [← List.take_append_drop 12 (allCandidateSlots form es now)] at hsorted hs
    have hsd : s ∈ List.drop 12 (allCandidateSlots form es now) := by
      rcases List.mem_append.mp hs with h | h
      · exact absurd h hns
      · exact h
    exact (List.pairwise_append.mp hsorted).2.2 r hr s hsd

/-- Witness for C9 at the concrete scenario input. -/
theorem c9_witness :
    scenarioForm.endHour ≤ 24 ∧
    (findAvailableSlots scenarioForm scenarioEvents 5040).length ≤ 12 :=
  ⟨by decide, (c9_bounded_earliest scenarioForm scenarioEvents 5040 (by decide)).1⟩

/-- The conflict check only reads each event's start and end instants. -/
lemma hasConflict_ext {es1 es2 : List CalEvent}
    (h : es1.map (fun e => (e.start, e.stop)) = es2.map (fun e => (e.start, e.stop))) :
    ∀ a b : Int, hasConflict es1 a b = hasConflict es2 a b := by
  induction es1 generalizing es2 with
  | nil =>
    cases es2 with
    | nil => intro a b; rfl
    | cons y ys => simp at h
  | cons x xs ih =>
    cases es2 with
    | nil => simp at h
    | cons y ys =>
      simp only [List.map_cons, List.cons.injEq, Prod.mk.injEq] at h
      obtain ⟨⟨h1, h2⟩, h3⟩ := h
      intro a b
      simp only [hasConflict, List.any_cons]
      rw [h1, h2]
      have hrec := ih h3 a b
      simp only [hasConflict] at hrec
      rw [hrec]

/-- C10. Frame and purity: the resolver reads only each event's start/end
instants — two busy lists whose interval projections agree produce equal
results — and, being a function of `(form, events, now)` alone, it is
deterministic and mutates nothing. -/
theorem c10_frame (form : MeetingForm) (es1 es2 : List CalEvent) (now : Int)
    (h : es1.map (fun e => (e.start, e.stop)) = es2.map (fun e => (e.start, e.stop))) :
    findAvailableSlots form es1 now = findAvailableSlots form es2 now := by
  have hc : ∀ a b, hasConflict es1 a b = hasConflict es2 a b := hasConflict_ext h
  have hslot : ∀ d hour minute, slotAt form es1 d hour minute = slotAt form es2 d hour minute := by
    intro d hour minute
    simp only [slotAt, hc]
  have hday : ∀ d, daySlots form es1 d = daySlots form es2 d := by
    intro d
    unfold daySlots
    refine List.flatMap_congr fun hour _ => ?_
    exact List.filterMap_congr fun minute _ => hslot d hour minute
  unfold findAvailableSlots allCandidateSlots
  congr 1
  refine List.flatMap_congr fun i _ => ?_
  rw [hday]

/-- Witness for C10: two busy lists with equal intervals but different
titles yield identical results. -/
theorem c10_witness :
    ([⟨"standup", 6360, 6390⟩] : List CalEvent).map (fun e => (e.start, e.stop)) =
      ([⟨"review", 6360, 6390⟩] : List CalEvent).map (fun e => (e.start, e.stop)) ∧
    findAvailableSlots scenarioForm [⟨"standup", 6360, 6390⟩] 5040 =
      findAvailableSlots scenarioForm [⟨"review", 6360, 6390⟩] 5040 :=
  ⟨by decide,
    c10_frame scenarioForm [⟨"standup", 6360, 6390⟩] [⟨"review", 6360, 6390⟩] 5040 (by decide)⟩
